import Mathlib

/-!
Verification of the cache backends, the task executor glue, and the path
primitives of a monorepo task runner. The definitions are shallow embeddings
of the Go source: paths and strings handled by the Go `path/filepath` package
are modelled as lists of characters on a Unix host (separator `/`), and OS
effects (lstat, readlink, file reads) are passed in explicitly as values.
Definitions come first, then the theorems about them.
-/

namespace Turbo

/-! ## Path model: Go `path/filepath` on a Unix host -/

/-- Splits a character list on `/` separators, mirroring
`strings.Split(path, "/")`: a leading separator yields a leading empty
component and consecutive separators yield empty components. -/
def splitSlash : List Char → List (List Char)
  | [] => [[]]
  | c :: rest =>
    let r := splitSlash rest
    if c = '/' then [] :: r
    else
      match r with
      | h :: t => (c :: h) :: t
      | [] => [[c]]

/-- Joins components with `/`, mirroring `strings.Join(elems, "/")`. -/
def joinSlash : List (List Char) → List Char
  | [] => []
  | [x] => x
  | x :: xs => x ++ '/' :: joinSlash xs

/-- One step of the component stack of `filepath.Clean`: a `..` component
pops a non-`..` entry, is dropped at the root, and accumulates otherwise;
every other component is pushed. -/
def cleanStep (rooted : Bool) (st : List (List Char)) (c : List Char) : List (List Char) :=
  if c = ['.', '.'] then
    match st with
    | [] => if rooted then [] else [c]
    | top :: rest => if top = ['.', '.'] then c :: st else rest
  else c :: st

/-- Reassembly at the end of `filepath.Clean`: a rooted result regains its
leading `/` (just `/` when nothing remains), an empty unrooted result
becomes `.`. -/
def cleanAssemble (rooted : Bool) (body : List Char) : List Char :=
  if rooted then (if body.isEmpty then ['/'] else '/' :: body)
  else (if body.isEmpty then ['.'] else body)

/-- Body of `filepath.Clean` once emptiness and rootedness of the input are
known: drop empty and `.` components, resolve `..` with `cleanStep`, and
re-assemble. -/
def cleanWith (rooted : Bool) (p : List Char) : List Char :=
  let comps := (splitSlash p).filter fun c => !c.isEmpty && c != ['.']
  let stack := comps.foldl (cleanStep rooted) []
  cleanAssemble rooted (joinSlash stack.reverse)

/-- Model of Go `filepath.Clean` on a Unix host. -/
def clean (p : List Char) : List Char :=
  if p.isEmpty then ['.'] else cleanWith (p.head? == some '/') p

/-- The prefix of the input up to and including its last `/`, or the empty
list when the input holds no separator; this is `path[:i+1]` for the
separator scan inside Go `filepath.Dir`. -/
def prefixThruLastSlash : List Char → List Char
  | [] => []
  | c :: rest =>
    let t := prefixThruLastSlash rest
    if t.isEmpty then (if c = '/' then [c] else []) else c :: t

/-- Model of Go `filepath.Dir` on a Unix host (no volume names):
`Clean` of the input truncated after its last separator. -/
def dirOf (p : List Char) : List Char := clean (prefixThruLastSlash p)

/-- Model of Go `filepath.Join` on a Unix host: skip leading empty elements,
join the remainder with `/`, and `Clean` the result; all-empty input gives
the empty path. -/
def joinPaths (elems : List (List Char)) : List Char :=
  match elems.dropWhile (·.isEmpty) with
  | [] => []
  | rest => clean (joinSlash rest)

/-- Model of Go `filepath.IsAbs` on a Unix host. -/
def isAbs (p : List Char) : Bool := p.head? == some '/'

/-- `filepath.FromSlash` is the identity on a Unix host. -/
def fromSlash (p : List Char) : List Char := p

/-- `AbsolutePath.Join(args...)`, which the source defines as
`filepath.Join(ap.asString(), filepath.Join(args...))`. -/
def apJoin (ap : List Char) (args : List (List Char)) : List Char :=
  joinPaths [ap, joinPaths args]

/-- `AbsolutePath.JoinPOSIXPath(posixPath)`: converts the POSIX input with
`filepath.FromSlash` and joins it onto this absolute path. -/
def joinPOSIXPath (ap : List Char) (posixPath : List Char) : List Char :=
  apJoin ap [fromSlash posixPath]

/-- `AbsolutePath.Readlink` after `os.Readlink` returned `dest`: an absolute
destination is returned as is, a relative one is joined to the parent
directory of the link path. -/
def readlinkResolve (ap : List Char) (dest : List Char) : List Char :=
  if isAbs dest then dest else apJoin (dirOf ap) [dest]

/-! ## HTTP cache Put: tar packaging (`storeFile`, `write`) -/

/-- Model of a Go `time.Time` value at the granularity the cache code needs:
the civil components passed to `time.Date`. -/
structure GoTime where
  year : Nat
  month : Nat
  day : Nat
  hour : Nat
  minute : Nat
  second : Nat
  nsec : Nat
deriving DecidableEq, Repr

/-- `mtime`: the fixed epoch `time.Date(2000, time.January, 1, 0, 0, 0, 0, UTC)`
attached as modification time of every stored file. -/
def mtime : GoTime := ⟨2000, 1, 1, 0, 0, 0, 0⟩

/-- `nobody`: the usual uid / gid of the nobody user. -/
def nobody : Nat := 65534

/-- Tar type flag value of archive/tar `TypeReg`, the byte of `0`. -/
def typeReg : Nat := 48

/-- Tar type flag value of archive/tar `TypeSymlink`, the byte of `2`. -/
def typeSymlink : Nat := 50

/-- Tar type flag value of archive/tar `TypeDir`, the byte of `5`. -/
def typeDir : Nat := 53

/-- The fields of an archive/tar `Header` the cache code reads or writes. -/
structure TarHeader where
  name : List Char
  linkname : List Char
  typeflag : Nat
  mode : Int
  modTime : GoTime
  accessTime : GoTime
  changeTime : GoTime
  uid : Nat
  gid : Nat
  uname : String
  gname : String
deriving DecidableEq, Repr

/-- The lstat results `storeFile` consults: base name, mod time, whether the
entry is a directory or a symlink, and its permission bits. -/
structure FileInfo where
  baseName : List Char
  modTime : GoTime
  isDir : Bool
  isSymlink : Bool
  perm : Int
deriving DecidableEq, Repr

/-- Model of `tar.FileInfoHeader(info, link)`: name from the file base name
(with a trailing slash for directories), type flag from the mode type, link
target recorded for symlinks, times from lstat, ids zero. -/
def fileInfoHeader (info : FileInfo) (link : List Char) : TarHeader :=
  { name := info.baseName ++ (if info.isDir then ['/'] else [])
    linkname := if info.isSymlink then link else []
    typeflag := if info.isDir then typeDir else if info.isSymlink then typeSymlink else typeReg
    mode := info.perm
    modTime := info.modTime
    accessTime := info.modTime
    changeTime := info.modTime
    uid := 0
    gid := 0
    uname := ""
    gname := "" }

/-- `filepath.ToSlash` with an explicit platform separator: replaces every
separator character with `/`. -/
def toSlash (sep : Char) (s : List Char) : List Char :=
  s.map fun c => if c = sep then '/' else c

/-- The effectful inputs of one `storeFile` call, passed as values: the
`Lstat` result, the `Readlink` result (consulted only for symlinks, `none`
meaning the call failed), the `root.RelativePathString(name)` result, and
the file content for the `io.Copy`. -/
structure FileMeta where
  info : FileInfo
  readlinkResult : Option (List Char)
  relPathResult : Option (List Char)
  content : List Nat
deriving DecidableEq, Repr

/-- One tar entry as written by the tar writer: the header, and the file
body when one is copied after the header. -/
structure TarEntryOut where
  hdr : TarHeader
  content : Option (List Nat)
deriving DecidableEq, Repr

/-- `httpCache.storeFile`: lstat the file, read the link target for
symlinks, build the header via `tar.FileInfoHeader`, overwrite the name
with the slash-converted repo-relative path, zero the timestamps to the
fixed epoch, strip user and group ids to nobody, then write the header and,
for a plain file, its content. -/
def storeFile (sep : Char) (m : FileMeta) : Except Unit TarEntryOut :=
  let targetRes : Except Unit (List Char) :=
    if m.info.isSymlink then
      match m.readlinkResult with
      | none => .error ()
      | some t => .ok t
    else .ok []
  match targetRes with
  | .error e => .error e
  | .ok target =>
    let hdr0 := fileInfoHeader m.info (toSlash sep target)
    match m.relPathResult with
    | none => .error ()
    | some repoRelativePath =>
      let hdr := { hdr0 with
        name := toSlash sep repoRelativePath
        modTime := mtime
        accessTime := mtime
        changeTime := mtime
        uid := nobody
        gid := nobody
        uname := "nobody"
        gname := "nobody" }
      .ok { hdr := hdr
            content := if m.info.isDir || !target.isEmpty then none else some m.content }

/-- `httpCache.write`: streams each file through `storeFile` in order; a
failing file is logged and skipped, the loop continues. The result is the
sequence of tar entries that reach the wire. -/
def httpWrite (sep : Char) (files : List FileMeta) : List TarEntryOut :=
  files.foldr
    (fun m acc =>
      match storeFile sep m with
      | .ok e => e :: acc
      | .error _ => acc)
    []

/-- Normalization predicate of claim C1 for one tar header. -/
def normalizedHeader (hdr : TarHeader) : Prop :=
  hdr.modTime = mtime ∧ hdr.accessTime = mtime ∧ hdr.changeTime = mtime ∧
  hdr.uid = nobody ∧ hdr.gid = nobody ∧ hdr.uname = "nobody" ∧ hdr.gname = "nobody"

instance (hdr : TarHeader) : Decidable (normalizedHeader hdr) := by
  unfold normalizedHeader; infer_instance

/-- A concrete one-file input for the C1 witness: a plain file `b` under
directory `a` on a host whose separator is the backslash. -/
def c1File : FileMeta :=
  { info := { baseName := ['b']
              modTime := ⟨2024, 5, 6, 7, 8, 9, 10⟩
              isDir := false
              isSymlink := false
              perm := 420 }
    readlinkResult := none
    relPathResult := some ['a', '\\', 'b']
    content := [7] }

/-- The tar entry `httpWrite` emits for `c1File`. -/
def c1Entry : TarEntryOut :=
  { hdr := { name := ['a', '/', 'b']
             linkname := []
             typeflag := typeReg
             mode := 420
             modTime := mtime
             accessTime := mtime
             changeTime := mtime
             uid := nobody
             gid := nobody
             uname := "nobody"
             gname := "nobody" }
    content := some [7] }

/-! ## HTTP cache Fetch: response preamble (status, headers, signature) -/

/-- Digit-run parse used by the Atoi model: at least one digit, all digits. -/
def natOfDigits (ds : List Char) : Option Nat :=
  if ds.isEmpty then none
  else if ds.all Char.isDigit then
    some (ds.foldl (fun acc c => acc * 10 + (c.toNat - 48)) 0)
  else none

/-- Model of Go `strconv.Atoi`: an optional sign followed by at least one
digit (overflow is not modelled). -/
def goAtoi (s : List Char) : Option Int :=
  match s with
  | '+' :: ds => (natOfDigits ds).map Int.ofNat
  | '-' :: ds => (natOfDigits ds).map fun n => -(n : Int)
  | ds => (natOfDigits ds).map Int.ofNat

/-- An HTTP response as the Fetch path reads it: status code, the two
optional headers (`Header.Get` yields the empty string when a header is
absent), and the body bytes. -/
structure HTTPResponse where
  statusCode : Nat
  durationHeader : List Char
  tagHeader : List Char
  body : List Nat
deriving DecidableEq, Repr

/-- Errors surfaced by the response preamble of `httpCache.retrieve`. -/
inductive FetchErr where
  | invalidDurationHeader
  | httpError (status : Nat) (body : List Nat)
  | missingTag
  | tagVerification
  | tagMismatch (tag : List Char)
deriving DecidableEq, Repr

/-- Outcome of the response preamble: an error, a clean miss, or the body
handed on to the tar extractor together with the parsed duration. -/
inductive FetchOutcome where
  | err (e : FetchErr)
  | miss
  | extract (body : List Nat) (duration : Int)
deriving DecidableEq, Repr

/-- The `x-artifact-duration` parse at the top of `httpCache.retrieve`: a
present header must be a valid integer, an absent one gives zero. In the
source this runs before any status check. -/
def parseDurationHeader (h : List Char) : Except FetchErr Int :=
  if !h.isEmpty then
    match goAtoi h with
    | none => .error .invalidDurationHeader
    | some n => .ok n
  else .ok 0

/-- The phase of `httpCache.retrieve` before tar extraction, translated in
order from the source: parse the duration header (before any status
check), report 404 as a clean miss, any other non-200 status as an error
carrying the response body; with signing enabled require the
`x-artifact-tag` header, buffer the body, verify it through the signer
(passed as a function), and hand only a verified body to the extractor. -/
def retrievePre (signerEnabled : Bool)
    (validate : List Char → List Nat → List Char → Except Unit Bool)
    (hash : List Char) (resp : HTTPResponse) : FetchOutcome :=
  match parseDurationHeader resp.durationHeader with
  | .error e => .err e
  | .ok duration =>
    if resp.statusCode = 404 then .miss
    else if resp.statusCode ≠ 200 then .err (.httpError resp.statusCode resp.body)
    else
      if signerEnabled then
        if resp.tagHeader.isEmpty then .err .missingTag
        else
          match validate hash resp.body resp.tagHeader with
          | .error _ => .err .tagVerification
          | .ok false => .err (.tagMismatch resp.tagHeader)
          | .ok true => .extract resp.body duration
      else .extract resp.body duration

/-- The duration header of a response is absent or parses as an integer. -/
def durationHeaderOk (resp : HTTPResponse) : Prop :=
  resp.durationHeader.isEmpty = true ∨ (goAtoi resp.durationHeader).isSome = true

instance (resp : HTTPResponse) : Decidable (durationHeaderOk resp) := by
  unfold durationHeaderOk; infer_instance

/-- The duration a 200 response reports: the parsed header, zero when the
header is absent. -/
def parsedDuration (resp : HTTPResponse) : Int :=
  if resp.durationHeader.isEmpty then 0 else (goAtoi resp.durationHeader).getD 0

/-! ## HTTP cache Fetch: tar extraction and symlink restoration -/

/-- A filesystem entry as restored by the extractor. -/
inductive FSEntry where
  | dir
  | file (content : List Nat) (mode : Int)
  | symlink (target : List Char)
deriving DecidableEq, Repr

/-- The restored filesystem: an association of absolute paths to entries. -/
abbrev FS := List (List Char × FSEntry)

def fsLookup (fs : FS) (p : List Char) : Option FSEntry :=
  (fs.find? fun e => e.1 == p).map (·.2)

def fsErase (fs : FS) (p : List Char) : FS :=
  fs.filter fun e => e.1 != p

def fsInsert (fs : FS) (p : List Char) (entry : FSEntry) : FS :=
  (p, entry) :: fsErase fs p

/-- Model of `os.MkdirAll` driven by fuel over the parent chain: an existing
directory is kept, an existing non-directory is an error, and otherwise the
parents are created first. -/
def mkdirAllFuel : Nat → FS → List Char → Except Unit FS
  | 0, fs, p => .ok (fsInsert fs p .dir)
  | n + 1, fs, p =>
    match fsLookup fs p with
    | some .dir => .ok fs
    | some _ => .error ()
    | none =>
      let parent := dirOf p
      if parent = p then .ok (fsInsert fs p .dir)
      else
        match mkdirAllFuel n fs parent with
        | .error e => .error e
        | .ok fs2 => .ok (fsInsert fs2 p .dir)

/-- `AbsolutePath.MkdirAll`. -/
def mkdirAll (fs : FS) (p : List Char) : Except Unit FS :=
  mkdirAllFuel (p.length + 1) fs p

/-- `AbsolutePath.EnsureDir`: create the parent directories of a file. -/
def ensureDir (fs : FS) (filename : List Char) : Except Unit FS :=
  mkdirAll fs (dirOf filename)

/-- Errors of the extraction phase: the sentinel for a link target that
does not exist, and every other I/O failure. -/
inductive RErr where
  | nonexistentLinkTarget
  | ioError
deriving DecidableEq, Repr

/-- `restoreSymlink(root, hdr, allowNonexistentTargets)`: ensure the parent
directory of the link, lstat the root-joined link target and, when it does
not exist and nonexistent targets are not allowed, fail with the sentinel;
otherwise remove an existing file at the link path and create the symlink
with the slash-converted target string. -/
def restoreSymlink (root : List Char) (hdrName hdrLinkname : List Char)
    (allowNonexistentTargets : Bool) (fs : FS) : Except RErr FS :=
  let linkTarget := fromSlash hdrLinkname
  let localLinkFilename := joinPOSIXPath root hdrName
  let localLinkTarget := joinPOSIXPath root hdrLinkname
  match ensureDir fs localLinkFilename with
  | .error _ => .error .ioError
  | .ok fs1 =>
    if (fsLookup fs1 localLinkTarget).isNone && !allowNonexistentTargets then
      .error .nonexistentLinkTarget
    else
      let fs2 :=
        if (fsLookup fs1 localLinkFilename).isSome then fsErase fs1 localLinkFilename else fs1
      .ok (fsInsert fs2 localLinkFilename (.symlink linkTarget))

/-- A tar entry as the extractor reads it. -/
inductive TarEntryIn where
  | dir (name : List Char)
  | reg (name : List Char) (mode : Int) (content : List Nat)
  | symlink (name linkname : List Char)
  | other (name : List Char) (typeflag : Nat)
deriving DecidableEq, Repr

def tarEntryName : TarEntryIn → List Char
  | .dir name => name
  | .reg name _ _ => name
  | .symlink name _ => name
  | .other name _ => name

/-- Loop state of the extraction in `httpCache.retrieve`: the filesystem,
the accumulated restored paths, and the deferred symlink headers. -/
structure RetrieveState where
  fs : FS
  files : List (List Char)
  missingLinks : List (List Char × List Char)
deriving DecidableEq, Repr

/-- One iteration of the extraction loop: append the root-joined path to
the restored list, then restore a directory, a regular file, or a symlink.
A symlink is restored through `restoreSymlink` with
`allowNonexistentTargets = true`; only the sentinel error defers it to the
missing-links list. An unhandled entry type is logged and skipped. -/
def processTarEntry (root : List Char) (st : RetrieveState) (e : TarEntryIn) :
    Except RErr RetrieveState :=
  let localPath := joinPOSIXPath root (tarEntryName e)
  let st := { st with files := st.files ++ [localPath] }
  match e with
  | .dir _ =>
    match mkdirAll st.fs localPath with
    | .error _ => .error .ioError
    | .ok fs2 => .ok { st with fs := fs2 }
  | .reg _ mode content =>
    match ensureDir st.fs localPath with
    | .error _ => .error .ioError
    | .ok fs2 => .ok { st with fs := fsInsert fs2 localPath (.file content mode) }
  | .symlink name linkname =>
    match restoreSymlink root name linkname true st.fs with
    | .error .nonexistentLinkTarget =>
      .ok { st with missingLinks := st.missingLinks ++ [(name, linkname)] }
    | .error e2 => .error e2
    | .ok fs2 => .ok { st with fs := fs2 }
  | .other _ _ => .ok st

/-- The extraction loop over the whole entry stream. -/
def processEntries (root : List Char) (entries : List TarEntryIn) (st : RetrieveState) :
    Except RErr RetrieveState :=
  match entries with
  | [] => .ok st
  | e :: rest =>
    match processTarEntry root st e with
    | .error err => .error err
    | .ok st2 => processEntries root rest st2

/-- The EOF replay of deferred symlinks, with
`allowNonexistentTargets = false`. -/
def replayMissingLinks (root : List Char) (links : List (List Char × List Char)) (fs : FS) :
    Except RErr FS :=
  match links with
  | [] => .ok fs
  | (name, linkname) :: rest =>
    match restoreSymlink root name linkname false fs with
    | .error e => .error e
    | .ok fs2 => replayMissingLinks root rest fs2

/-- The tar extraction of `httpCache.retrieve`: run the loop from an empty
state over the given filesystem, then replay the deferred symlinks at EOF;
the result is the filesystem and the restored path list of a hit. -/
def restoreTar (root : List Char) (entries : List TarEntryIn) (fs : FS) :
    Except RErr (FS × List (List Char)) :=
  match processEntries root entries { fs := fs, files := [], missingLinks := [] } with
  | .error e => .error e
  | .ok st =>
    match replayMissingLinks root st.missingLinks st.fs with
    | .error e => .error e
    | .ok fs2 => .ok (fs2, st.files)

/-- POSIX resolution of a restored symlink, one level deep: an absolute
stored target names that path, a relative one is resolved against the
directory containing the link. -/
def resolveLinkAt (linkPath target : List Char) : List Char :=
  if isAbs target then target else joinPaths [dirOf linkPath, target]

/-- The workspace root of the C2 scenario. -/
def c2Root : List Char := ['/', 'r']

/-- The symlink entry of the C2 scenario: `dist/link` pointing at `target`,
emitted before the target file exists. -/
def c2Link : TarEntryIn := .symlink ['d', 'i', 's', 't', '/', 'l', 'i', 'n', 'k'] ['t', 'a', 'r', 'g', 'e', 't']

/-- The target file entry of the C2 scenario, emitted after the symlink. -/
def c2Target : TarEntryIn := .reg ['d', 'i', 's', 't', '/', 't', 'a', 'r', 'g', 'e', 't'] 420 [3]

/-- The restored path of the link in the C2 scenario. -/
def c2LinkPath : List Char := joinPOSIXPath c2Root ['d', 'i', 's', 't', '/', 'l', 'i', 'n', 'k']

/-- The restored path of the target file in the C2 scenario. -/
def c2TargetPath : List Char := joinPOSIXPath c2Root ['d', 'i', 's', 't', '/', 't', 'a', 'r', 'g', 'e', 't']

/-! ## Executor: child command construction (`execContext.exec`) -/

/-- The fields of a scheduled package task the executor reads. -/
structure PackageTask where
  taskID : String
  task : String
  packageName : String
  pkgDir : String
  command : Option String
deriving DecidableEq, Repr

/-- A spawned child process: program, arguments, working directory,
environment. -/
structure ChildCmd where
  prog : String
  args : List String
  dir : String
  env : List String
deriving DecidableEq, Repr

/-- The command-construction and dispatch part of `execContext.exec`: when
the package has no script for the task nothing is spawned, when the cache
restores outputs nothing is spawned, and otherwise the child is
`exec.Command(packageManager.Command, "run", task, passThroughArgs...)`
with the package directory as working directory and `os.Environ()` plus
`TURBO_HASH=<hash>` as environment. -/
def execSpawn (pmCommand : String) (parentEnv : List String) (pt : PackageTask)
    (passThroughArgs : List String) (hash : String) (cacheHit : Bool) :
    Option ChildCmd :=
  match pt.command with
  | none => none
  | some _ =>
    if cacheHit then none
    else
      some { prog := pmCommand
             args := ["run", pt.task] ++ passThroughArgs
             dir := pt.pkgDir
             env := parentEnv ++ ["TURBO_HASH=" ++ hash] }

/-! ## Exit code aggregation (`run.executeTasks`, `RunCommand.Run`) -/

/-- Errors collected by the scheduler: a child process exit carrying its
code, or any other (internal) error. -/
inductive RunErr where
  | childExit (code : Nat)
  | internal
deriving DecidableEq, Repr

/-- One iteration of the error loop of `run.executeTasks`: a ChildExit
raises the code to its maximum, any other error sets the code to 1 when
none is set yet. -/
def exitCodeStep (exitCode : Nat) (e : RunErr) : Nat :=
  match e with
  | .childExit c => if c > exitCode then c else exitCode
  | .internal => if exitCode = 0 then 1 else exitCode

/-- The error fold of `run.executeTasks` over the collected errors. -/
def executeTasksExitCode (errs : List RunErr) : Nat :=
  errs.foldl exitCodeStep 0

/-- Return value of `run.executeTasks` as `RunCommand.Run` sees it: nil on
code zero, a ChildExit carrying the aggregated code otherwise; other errors
from earlier stages are possible in `Run` as well. -/
inductive RunOutcome where
  | ok
  | childExit (code : Nat)
  | otherError
deriving DecidableEq, Repr

def executeTasks (errs : List RunErr) : RunOutcome :=
  let exitCode := executeTasksExitCode errs
  if exitCode ≠ 0 then .childExit exitCode else .ok

/-- `RunCommand.Run`: no error maps to process exit 0, a ChildExit error to
its code, any other error to 1. -/
def runCommandExit : RunOutcome → Nat
  | .ok => 0
  | .childExit c => c
  | .otherError => 1

/-- The overall process exit code of a run whose scheduler collected the
given errors. -/
def overallExitCode (errs : List RunErr) : Nat :=
  runCommandExit (executeTasks errs)

/-- The exit codes of the ChildExit errors among the collected errors. -/
def childExitCodes (errs : List RunErr) : List Nat :=
  errs.filterMap fun e =>
    match e with
    | .childExit c => some c
    | .internal => none

/-- The maximum child exit code across all failed tasks (zero when none). -/
def maxChildExitCode (errs : List RunErr) : Nat :=
  (childExitCodes errs).foldr max 0

/-- Some child exited with a positive code. -/
def hasPosChild (errs : List RunErr) : Bool :=
  errs.any fun e =>
    match e with
    | .childExit c => decide (0 < c)
    | .internal => false

/-- Some non-child (internal) error was collected. -/
def hasInternal (errs : List RunErr) : Bool :=
  errs.any fun e =>
    match e with
    | .childExit _ => false
    | .internal => true

/-! ## Async write-through cache -/

/-- One queued store request of the async cache. -/
structure CacheRequest where
  root : List Char
  key : String
  duration : Int
  files : List (List Char)
deriving DecidableEq, Repr

/-- State of the async write-through cache: the channel content (requests
sent but not yet consumed), the requests already handed to the wrapped
backend in order, and whether the channel is closed. -/
structure AsyncState where
  queue : List CacheRequest
  innerPuts : List CacheRequest
  closed : Bool
deriving DecidableEq, Repr

/-- `asyncCache.Put`: sends the request on the channel and returns nil. -/
def asyncPut (st : AsyncState) (root : List Char) (key : String) (duration : Int)
    (files : List (List Char)) : AsyncState × Option String :=
  ({ st with queue := st.queue ++ [{ root := root, key := key, duration := duration, files := files }] },
   none)

/-- One worker iteration of `asyncCache.run`: receive a request and invoke
the wrapped backend Put, whose error result is discarded. -/
def asyncWorkerStep (innerPut : CacheRequest → Option String) (st : AsyncState) : AsyncState :=
  match st.queue with
  | [] => st
  | r :: rest =>
    let _ignoredPutError := innerPut r
    { st with queue := rest, innerPuts := st.innerPuts ++ [r] }

/-- Workers drain the closed channel until it is empty. -/
def asyncDrain (innerPut : CacheRequest → Option String) : Nat → AsyncState → AsyncState
  | 0, st => st
  | n + 1, st =>
    if st.queue.isEmpty then st else asyncDrain innerPut n (asyncWorkerStep innerPut st)

/-- `asyncCache.Shutdown`: close the channel and wait for the workers to
hand every remaining request to the wrapped backend. -/
def asyncShutdown (innerPut : CacheRequest → Option String) (st : AsyncState) : AsyncState :=
  asyncDrain innerPut st.queue.length { st with closed := true }

/-- `asyncCache.Fetch`: synchronous delegation to the wrapped backend. -/
def asyncFetch {α : Type} (innerFetch : List Char → String → α) (st : AsyncState)
    (root : List Char) (key : String) : α :=
  innerFetch root key

/-- `asyncCache.Clean`: synchronous delegation to the wrapped backend. -/
def asyncClean {α : Type} (innerClean : String → α) (st : AsyncState) (target : String) : α :=
  innerClean target

/-! ## Filesystem cache Fetch (`fsCache.Fetch`) -/

/-- Metadata persisted beside each local artifact. -/
structure CacheMetadata where
  hash : String
  duration : Int
deriving DecidableEq, Repr

/-- The effectful inputs of one `fsCache.Fetch` call, passed as values:
whether `cacheDir/<hash>` exists, the result of the recursive
link-or-copy (`none` meaning success), and the parsed meta file (`none`
meaning the read or parse failed). -/
structure FsFetchEnv where
  cachedFolderExists : Bool
  copyError : Option String
  metaRead : Option CacheMetadata
deriving DecidableEq, Repr

/-- Observable side effects of `fsCache.Fetch`. -/
inductive FsAction where
  | recursiveCopyOrLink (src dst : List Char)
  | readMeta (path : List Char)
deriving DecidableEq, Repr

/-- The Go return tuple `(hit, files, duration, err)` of a cache Fetch. -/
structure FetchReturn where
  hit : Bool
  files : Option (List (List Char))
  duration : Int
  err : Option String
deriving DecidableEq, Repr

/-- `fsCache.Fetch`: when `cacheDir/<hash>` is absent the result is a miss
with no error and nothing is touched; otherwise the cached folder is
recursively hard-linked-or-copied into the workspace root (a failure is an
error), then the duration is read from `cacheDir/<hash>-meta.json` (a
failure is an error) and a hit carrying that duration is returned. -/
def fsFetch (cacheDirectory : List Char) (root : List Char) (hash : String)
    (env : FsFetchEnv) : FetchReturn × List FsAction :=
  let cachedFolder := apJoin cacheDirectory [hash.toList]
  if !env.cachedFolderExists then
    ({ hit := false, files := none, duration := 0, err := none }, [])
  else
    match env.copyError with
    | some e =>
      ({ hit := false, files := none, duration := 0, err := some e },
       [.recursiveCopyOrLink cachedFolder root])
    | none =>
      let metaPath := apJoin cacheDirectory [(hash ++ "-meta.json").toList]
      match env.metaRead with
      | none =>
        ({ hit := false, files := none, duration := 0, err := some "error reading cache metadata" },
         [.recursiveCopyOrLink cachedFolder root, .readMeta metaPath])
      | some meta =>
        ({ hit := true, files := none, duration := meta.duration, err := none },
         [.recursiveCopyOrLink cachedFolder root, .readMeta metaPath])

/-! ## Concrete inputs used by witnesses -/

/-- A verifier accepting exactly the tag `t`, for the C3 witness. -/
def c3Validate : List Char → List Nat → List Char → Except Unit Bool :=
  fun _ _ tag => .ok (tag == ['t'])

/-- The hash of the C3 witness. -/
def c3Hash : List Char := ['h']

/-- A signed 200 response with tag `t` and no duration header. -/
def c3Resp : HTTPResponse :=
  { statusCode := 200, durationHeader := [], tagHeader := ['t'], body := [1, 2] }

/-- A verifier accepting everything, for the C4 theorems. -/
def acceptAllValidate : List Char → List Nat → List Char → Except Unit Bool :=
  fun _ _ _ => .ok true

/-- A 404 response carrying a malformed `x-artifact-duration` header. -/
def c4BadResp : HTTPResponse :=
  { statusCode := 404, durationHeader := ['b', 'o', 'g', 'u', 's'], tagHeader := [], body := [] }

/-- A well-formed 404 response, for the C4 witness. -/
def c4MissResp : HTTPResponse :=
  { statusCode := 404, durationHeader := ['7'], tagHeader := [], body := [9] }

/-- A concrete package task with a script command, for the C5 witness. -/
def c5Task : PackageTask :=
  { taskID := "web#build", task := "build", packageName := "web",
    pkgDir := "apps/web", command := some "next build" }

/-- The errors of the C6 witness run: one internal error and two failed
children with codes 2 and 5. -/
def c6Errs : List RunErr := [.internal, .childExit 2, .childExit 5]

/-- The environment of the C8 witness: the hash directory exists, the copy
succeeds, the meta file reads back a 42 millisecond duration. -/
def c8Env : FsFetchEnv :=
  { cachedFolderExists := true, copyError := none, metaRead := some { hash := "h1", duration := 42 } }

/-! ## Theorems -/

theorem cleanAssemble_true_head (body : List Char) :
    (cleanAssemble true body).head? = some '/' := by
  by_cases h : body.isEmpty <;> simp [cleanAssemble, h]

theorem cleanWith_true_head (p : List Char) : (cleanWith true p).head? = some '/' := by
  simp only [cleanWith]
  exact cleanAssemble_true_head _

theorem clean_head (p : List Char) (h : p.head? = some '/') : (clean p).head? = some '/' := by
  have hne : p.isEmpty = false := by cases p <;> simp_all
  simp [clean, hne, h, cleanWith_true_head]

theorem joinSlash_cons_head (a : List Char) (rest : List (List Char)) (h : a ≠ []) :
    (joinSlash (a :: rest)).head? = a.head? := by
  cases rest with
  | nil => rfl
  | cons b bs =>
    show (a ++ '/' :: joinSlash (b :: bs)).head? = a.head?
    cases a with
    | nil => exact absurd rfl h
    | cons c cs => rfl

theorem joinPaths_cons_head (a : List Char) (rest : List (List Char))
    (h : a.head? = some '/') : (joinPaths (a :: rest)).head? = some '/' := by
  have hne : a ≠ [] := by cases a <;> simp_all
  have hie : a.isEmpty = false := by cases a <;> simp_all
  rw [joinPaths, List.dropWhile_cons]
  simp only [hie, Bool.false_eq_true, if_false]
  exact clean_head _ (by rw [joinSlash_cons_head a rest hne]; exact h)

theorem prefixThruLastSlash_head (rest : List Char) :
    (prefixThruLastSlash ('/' :: rest)).head? = some '/' := by
  rw [prefixThruLastSlash]
  by_cases h : (prefixThruLastSlash rest).isEmpty <;> simp [h]

theorem dirOf_abs (p : List Char) (h : isAbs p = true) : (dirOf p).head? = some '/' := by
  obtain ⟨rest, rfl⟩ : ∃ rest, p = '/' :: rest := by
    cases p with
    | nil => simp [isAbs] at h
    | cons c cs =>
      simp [isAbs] at h
      exact ⟨cs, by rw [h]⟩
  exact clean_head _ (prefixThruLastSlash_head rest)

/-- Claim C10: for every absolute path on which Readlink succeeds, an
absolute stored target is returned as is, a relative one is joined to the
parent directory of the link, and the returned path is absolute whenever the
link path is absolute. -/
theorem readlink_absolute (ap dest : List Char) (h : isAbs ap = true) :
    isAbs (readlinkResolve ap dest) = true := by
  rw [readlinkResolve]
  by_cases hd : isAbs dest
  · simp [hd]
  · have hd' : isAbs dest = false := by simpa using hd
    simp only [hd', Bool.false_eq_true, if_false]
    have h1 : (dirOf ap).head? = some '/' := dirOf_abs ap h
    rw [apJoin]
    have h2 := joinPaths_cons_head (dirOf ap) [joinPaths [dest]] h1
    simp [isAbs, h2]

/-- Witness for C10 at the concrete link path `/a/b` with relative stored
target `../c`. -/
theorem readlink_absolute_witness :
    isAbs ['/', 'a', '/', 'b'] = true ∧
    isAbs (readlinkResolve ['/', 'a', '/', 'b'] ['.', '.', '/', 'c']) = true :=
  ⟨by decide, readlink_absolute ['/', 'a', '/', 'b'] ['.', '.', '/', 'c'] (by decide)⟩

theorem storeFile_ok_shape (sep : Char) (m : FileMeta) (e : TarEntryOut)
    (h : storeFile sep m = .ok e) :
    normalizedHeader e.hdr ∧
    ∃ rel, m.relPathResult = some rel ∧ e.hdr.name = toSlash sep rel := by
  unfold storeFile at h
  by_cases hs : m.info.isSymlink
  · cases hr : m.readlinkResult with
    | none => simp [hs, hr] at h
    | some t =>
      cases hp : m.relPathResult with
      | none => simp [hs, hr, hp] at h
      | some rel =>
        simp only [hs, hr, hp, if_true, if_pos] at h
        cases h
        exact ⟨by simp [normalizedHeader], rel, rfl, rfl⟩
  · cases hp : m.relPathResult with
    | none => simp [hs, hp] at h
    | some rel =>
      simp only [hs, hp, if_neg, Bool.false_eq_true, if_false] at h
      cases h
      exact ⟨by simp [normalizedHeader], rel, rfl, rfl⟩

theorem sep_not_mem_toSlash (sep : Char) (s : List Char) (hsep : sep ≠ '/') :
    sep ∉ toSlash sep s := by
  intro hmem
  obtain ⟨c, _, hc⟩ := List.mem_map.mp hmem
  by_cases h : c = sep
  · rw [if_pos h] at hc
    exact hsep hc.symm
  · rw [if_neg h] at hc
    exact h hc

/-- Claim C1: every tar entry emitted by the HTTP cache Put has its
modification, access, and change times set to the fixed epoch, uid and gid
65534, uname and gname nobody, and its name is the workspace-relative path
converted to POSIX form: it is the separator-to-slash image of the
`RelativePathString` result and holds no platform separator. -/
theorem put_tar_normalized (sep : Char) (files : List FileMeta) (e : TarEntryOut)
    (he : e ∈ httpWrite sep files) :
    normalizedHeader e.hdr ∧
    ∃ m rel, m ∈ files ∧ m.relPathResult = some rel ∧
      e.hdr.name = toSlash sep rel ∧ (sep ≠ '/' → sep ∉ e.hdr.name) := by
  induction files with
  | nil => simp [httpWrite] at he
  | cons m fs ih =>
    unfold httpWrite at he
    simp only [List.foldr_cons] at he
    cases hsf : storeFile sep m with
    | error _ =>
      rw [hsf] at he
      obtain ⟨h1, mm, rel, hm, h2⟩ := ih he
      exact ⟨h1, mm, rel, List.mem_cons_of_mem _ hm, h2⟩
    | ok e0 =>
      rw [hsf] at he
      rcases List.mem_cons.mp he with rfl | htail
      · obtain ⟨hn, rel, hrel, hname⟩ := storeFile_ok_shape sep m e hsf
        refine ⟨hn, m, rel, List.mem_cons_self _ _, hrel, hname, fun hsep => ?_⟩
        rw [hname]
        exact sep_not_mem_toSlash sep rel hsep
      · obtain ⟨h1, mm, rel, hm, h2⟩ := ih htail
        exact ⟨h1, mm, rel, List.mem_cons_of_mem _ hm, h2⟩

/-- Witness for C1: on a host with separator backslash, the one-file set
`c1File` (relative path `a\b`) yields the entry `c1Entry`, which is
normalized and whose name is the POSIX path `a/b`. -/
theorem put_tar_normalized_witness :
    c1Entry ∈ httpWrite '\\' [c1File] ∧
    (normalizedHeader c1Entry.hdr ∧
     ∃ m rel, m ∈ [c1File] ∧ m.relPathResult = some rel ∧
       c1Entry.hdr.name = toSlash '\\' rel ∧ ('\\' ≠ '/' → '\\' ∉ c1Entry.hdr.name)) :=
  ⟨by decide, put_tar_normalized '\\' [c1File] c1Entry (by decide)⟩

theorem restoreSymlink_allow_not_deferred (root name linkname : List Char) (fs : FS) :
    restoreSymlink root name linkname true fs ≠ Except.error RErr.nonexistentLinkTarget := by
  unfold restoreSymlink
  intro h
  simp only [Bool.not_true, Bool.and_false, Bool.false_eq_true, if_false] at h
  split at h
  · cases h
  · cases h

theorem processTarEntry_missingLinks (root : List Char) (st : RetrieveState)
    (e : TarEntryIn) (st1 : RetrieveState) (h : processTarEntry root st e = .ok st1) :
    st1.missingLinks = st.missingLinks := by
  cases e with
  | dir name =>
    unfold processTarEntry at h
    dsimp only [tarEntryName] at h
    split at h
    · cases h
    · injection h with h2
      subst h2
      rfl
  | reg name mode content =>
    unfold processTarEntry at h
    dsimp only [tarEntryName] at h
    split at h
    · cases h
    · injection h with h2
      subst h2
      rfl
  | symlink name linkname =>
    unfold processTarEntry at h
    dsimp only [tarEntryName] at h
    split at h
    · rename_i heq
      exact absurd heq (restoreSymlink_allow_not_deferred root name linkname st.fs)
    · cases h
    · injection h with h2
      subst h2
      rfl
  | other name typeflag =>
    unfold processTarEntry at h
    dsimp only [tarEntryName] at h
    injection h with h2
    subst h2
    rfl

/-- The deferred-symlink list never grows: with `allowNonexistentTargets`
passed as true inside the loop, the sentinel branch that would defer a
symlink is unreachable, so the missing-links machinery is dead code. -/
theorem processEntries_no_deferral (root : List Char) (entries : List TarEntryIn) :
    ∀ st : RetrieveState, ∀ st2 : RetrieveState,
      processEntries root entries st = .ok st2 → st2.missingLinks = st.missingLinks := by
  induction entries with
  | nil =>
    intro st st2 h
    unfold processEntries at h
    cases h
    rfl
  | cons e rest ih =>
    intro st st2 h
    unfold processEntries at h
    cases hpe : processTarEntry root st e with
    | error err => rw [hpe] at h; cases h
    | ok st1 =>
      rw [hpe] at h
      rw [ih st1 st2 h]
      exact processTarEntry_missingLinks root st e st1 hpe

/-- Claim C2 (code-bug evidence): extracting a tar whose symlink entry
precedes its target file creates the symlink immediately as a dangling
link the moment its entry is read: afterwards the deferred list is empty,
the link is on disk and the target is not, so no deferral to EOF takes
place; the whole extraction still completes without error, the restored
link resolves to the restored target, and the reported file list holds
both paths in stream order. -/
theorem symlink_created_immediately_never_deferred :
    (processEntries c2Root [c2Link] { fs := [], files := [], missingLinks := [] }).toOption.map
        (fun st => (st.missingLinks, fsLookup st.fs c2LinkPath, fsLookup st.fs c2TargetPath)) =
      some ([], some (.symlink ['t', 'a', 'r', 'g', 'e', 't']), none) ∧
    (restoreTar c2Root [c2Link, c2Target] []).toOption.map
        (fun r => (fsLookup r.1 c2LinkPath, fsLookup r.1 c2TargetPath, r.2)) =
      some (some (.symlink ['t', 'a', 'r', 'g', 'e', 't']), some (.file [3] 420),
        [c2LinkPath, c2TargetPath]) ∧
    resolveLinkAt c2LinkPath ['t', 'a', 'r', 'g', 'e', 't'] = c2TargetPath :=
  ⟨by decide, by decide, by decide⟩

theorem parseDurationHeader_ok (resp : HTTPResponse) (hdur : durationHeaderOk resp) :
    parseDurationHeader resp.durationHeader = .ok (parsedDuration resp) := by
  unfold parseDurationHeader parsedDuration
  by_cases he : resp.durationHeader.isEmpty
  · simp [he]
  · have hs : (goAtoi resp.durationHeader).isSome = true := by
      rcases hdur with h | h
      · exact absurd h he
      · exact h
    obtain ⟨n, hn⟩ := Option.isSome_iff_exists.mp hs
    simp [he, hn]

/-- Claim C3: with signing enabled, a 200 response without the
`x-artifact-tag` header is an error (not a miss); a present tag that the
verifier rejects is an error; and a body reaches the tar extractor only
when it is exactly the buffered response body, the tag header was present,
and the verifier accepted the tag over the hash and that body. -/
theorem fetch_signed_requires_and_verifies_tag
    (validate : List Char → List Nat → List Char → Except Unit Bool)
    (hash : List Char) (resp : HTTPResponse) (b : List Nat) (d : Int)
    (hdur : durationHeaderOk resp) :
    (resp.statusCode = 200 → resp.tagHeader = [] →
      retrievePre true validate hash resp = .err .missingTag) ∧
    (resp.statusCode = 200 → resp.tagHeader ≠ [] →
      validate hash resp.body resp.tagHeader = .ok false →
      retrievePre true validate hash resp = .err (.tagMismatch resp.tagHeader)) ∧
    (retrievePre true validate hash resp = .extract b d →
      b = resp.body ∧ resp.tagHeader ≠ [] ∧
      validate hash resp.body resp.tagHeader = .ok true) := by
  have hd := parseDurationHeader_ok resp hdur
  refine ⟨?_, ?_, ?_⟩
  · intro h200 htag
    unfold retrievePre
    rw [hd]
    simp [h200, htag]
  · intro h200 htag hval
    unfold retrievePre
    rw [hd]
    simp [h200, htag, hval]
  · intro hex
    unfold retrievePre at hex
    cases hpd : parseDurationHeader resp.durationHeader with
    | error e => rw [hpd] at hex; simp at hex
    | ok duration =>
      rw [hpd] at hex
      by_cases h404 : resp.statusCode = 404
      · simp [h404] at hex
      · by_cases h200 : resp.statusCode = 200
        · simp [h404, h200] at hex
          by_cases htag : resp.tagHeader = []
          · simp [htag] at hex
          · simp [htag] at hex
            cases hv : validate hash resp.body resp.tagHeader with
            | error e => rw [hv] at hex; simp at hex
            | ok bval =>
              rw [hv] at hex
              cases bval with
              | false => simp at hex
              | true =>
                simp at hex
                exact ⟨hex.1.symm, htag, rfl⟩
        · simp [h404, h200] at hex

/-- Witness for C3 at the concrete signed 200 response `c3Resp` with
matching tag; the response body reaches the extractor with duration 0. -/
theorem fetch_signed_requires_and_verifies_tag_witness :
    durationHeaderOk c3Resp ∧
    retrievePre true c3Validate c3Hash c3Resp = .extract [1, 2] 0 ∧
    ([1, 2] = c3Resp.body ∧ c3Resp.tagHeader ≠ [] ∧
      c3Validate c3Hash c3Resp.body c3Resp.tagHeader = .ok true) :=
  ⟨by decide, by decide,
    (fetch_signed_requires_and_verifies_tag c3Validate c3Hash c3Resp [1, 2] 0 (by decide)).2.2
      (by decide)⟩

/-- Counterexample to claim C4 as stated: a 404 response carrying a
malformed `x-artifact-duration` header is reported as an error, not as a
clean miss, because the header is parsed before the status check. -/
theorem fetch_404_with_bad_duration_is_error :
    retrievePre false acceptAllValidate ['h'] c4BadResp = .err .invalidDurationHeader ∧
    (retrievePre false acceptAllValidate ['h'] c4BadResp == FetchOutcome.miss) = false :=
  ⟨by decide, by decide⟩

/-- Claim C4 (amended): provided the optional `x-artifact-duration` header
is absent or parses as an integer, a 404 response is a clean miss, every
other non-200 status is an error carrying the response body, and a 200
response (signing disabled) hands the body to the extractor together with
the parsed duration. -/
theorem fetch_status_dispatch
    (validate : List Char → List Nat → List Char → Except Unit Bool)
    (hash : List Char) (resp : HTTPResponse)
    (hdur : durationHeaderOk resp) :
    (resp.statusCode = 404 → retrievePre false validate hash resp = .miss) ∧
    (resp.statusCode ≠ 404 → resp.statusCode ≠ 200 →
      retrievePre false validate hash resp = .err (.httpError resp.statusCode resp.body)) ∧
    (resp.statusCode = 200 →
      retrievePre false validate hash resp = .extract resp.body (parsedDuration resp)) := by
  have hd := parseDurationHeader_ok resp hdur
  refine ⟨?_, ?_, ?_⟩
  · intro h404
    unfold retrievePre
    rw [hd]
    simp [h404]
  · intro h404 h200
    unfold retrievePre
    rw [hd]
    simp [h404, h200]
  · intro h200
    unfold retrievePre
    rw [hd]
    simp [h200]

/-- Witness for C4 at the well-formed 404 response `c4MissResp`: a clean
miss. -/
theorem fetch_status_dispatch_witness :
    durationHeaderOk c4MissResp ∧ c4MissResp.statusCode = 404 ∧
    retrievePre false acceptAllValidate ['h'] c4MissResp = .miss :=
  ⟨by decide, by decide,
    (fetch_status_dispatch acceptAllValidate ['h'] c4MissResp (by decide)).1 (by decide)⟩

/-- Claim C5: on a cache miss of a task that has a script command, the
spawned child is the package manager command with the arguments `run`,
the task name, then the pass-through arguments (the optional `--`
separator of the spec is not emitted), its working directory is the
package directory, and its environment is the parent environment plus the
binding `TURBO_HASH=<fingerprint>`. -/
theorem exec_spawns_pm_run (pmCommand : String) (parentEnv : List String)
    (pt : PackageTask) (passThroughArgs : List String) (hash : String)
    (c : String) (hc : pt.command = some c) :
    execSpawn pmCommand parentEnv pt passThroughArgs hash false =
      some { prog := pmCommand
             args := ["run", pt.task] ++ passThroughArgs
             dir := pt.pkgDir
             env := parentEnv ++ ["TURBO_HASH=" ++ hash] } := by
  unfold execSpawn
  rw [hc]
  simp

/-- Witness for C5: a concrete npm task on a cache miss. -/
theorem exec_spawns_pm_run_witness :
    c5Task.command = some "next build" ∧
    execSpawn "npm" ["PATH=/bin"] c5Task ["--prod"] "abc123" false =
      some { prog := "npm"
             args := ["run", "build", "--prod"]
             dir := "apps/web"
             env := ["PATH=/bin", "TURBO_HASH=abc123"] } :=
  ⟨rfl, by
    have h := exec_spawns_pm_run "npm" ["PATH=/bin"] c5Task ["--prod"] "abc123" "next build" rfl
    simpa [c5Task] using h⟩

theorem childExitCodes_cons_child (c : Nat) (rest : List RunErr) :
    childExitCodes (.childExit c :: rest) = c :: childExitCodes rest := rfl

theorem childExitCodes_cons_internal (rest : List RunErr) :
    childExitCodes (.internal :: rest) = childExitCodes rest := rfl

theorem maxChildExitCode_cons_child (c : Nat) (rest : List RunErr) :
    maxChildExitCode (.childExit c :: rest) = max c (maxChildExitCode rest) := rfl

theorem maxChildExitCode_cons_internal (rest : List RunErr) :
    maxChildExitCode (.internal :: rest) = maxChildExitCode rest := rfl

theorem maxChildExitCode_pos (errs : List RunErr) (h : hasPosChild errs = true) :
    0 < maxChildExitCode errs := by
  induction errs with
  | nil => simp [hasPosChild] at h
  | cons e rest ih =>
    cases e with
    | childExit c =>
      rw [maxChildExitCode_cons_child]
      have h2 : 0 < c ∨ hasPosChild rest = true := by
        simpa [hasPosChild] using h
      rcases h2 with h2 | h2
      · exact Nat.lt_of_lt_of_le h2 (Nat.le_max_left _ _)
      · exact Nat.lt_of_lt_of_le (ih h2) (Nat.le_max_right _ _)
    | internal =>
      rw [maxChildExitCode_cons_internal]
      exact ih (by simpa [hasPosChild] using h)

theorem maxChildExitCode_zero (errs : List RunErr) (h : hasPosChild errs = false) :
    maxChildExitCode errs = 0 := by
  induction errs with
  | nil => rfl
  | cons e rest ih =>
    cases e with
    | childExit c =>
      have h2 : c = 0 ∧ hasPosChild rest = false := by simpa [hasPosChild] using h
      rw [maxChildExitCode_cons_child, ih h2.2, h2.1]
      simp
    | internal =>
      rw [maxChildExitCode_cons_internal]
      exact ih (by simpa [hasPosChild] using h)

theorem foldl_exitCodeStep_pos (errs : List RunErr) :
    ∀ acc, 0 < acc → errs.foldl exitCodeStep acc = max acc (maxChildExitCode errs) := by
  induction errs with
  | nil =>
    intro acc h
    simp [maxChildExitCode, childExitCodes]
  | cons e rest ih =>
    intro acc h
    cases e with
    | childExit c =>
      rw [List.foldl_cons]
      have hstep : exitCodeStep acc (.childExit c) = max acc c := by
        simp only [exitCodeStep]
        rcases Nat.lt_or_ge acc c with hlt | hge
        · rw [if_pos hlt, Nat.max_eq_right (Nat.le_of_lt hlt)]
        · rw [if_neg (Nat.not_lt.mpr hge), Nat.max_eq_left hge]
      rw [hstep, ih (max acc c) (Nat.lt_of_lt_of_le h (Nat.le_max_left _ _)),
        maxChildExitCode_cons_child, Nat.max_assoc]
    | internal =>
      rw [List.foldl_cons]
      have hstep : exitCodeStep acc .internal = acc := by
        simp only [exitCodeStep]
        rw [if_neg (Nat.pos_iff_ne_zero.mp h)]
      rw [hstep, ih acc h, maxChildExitCode_cons_internal]

theorem executeTasksExitCode_eq (errs : List RunErr) :
    executeTasksExitCode errs =
      if hasPosChild errs = true then maxChildExitCode errs
      else if hasInternal errs = true then 1 else 0 := by
  unfold executeTasksExitCode
  induction errs with
  | nil => rfl
  | cons e rest ih =>
    cases e with
    | childExit c =>
      rw [List.foldl_cons]
      rcases Nat.eq_zero_or_pos c with rfl | hpos
      · have hstep : exitCodeStep 0 (.childExit 0) = 0 := by decide
        rw [hstep, ih]
        have h1 : hasPosChild (RunErr.childExit 0 :: rest) = hasPosChild rest := by
          simp [hasPosChild]
        have h2 : hasInternal (RunErr.childExit 0 :: rest) = hasInternal rest := by
          simp [hasInternal]
        rw [h1, h2]
        by_cases hp : hasPosChild rest = true
        · simp [hp, maxChildExitCode_cons_child, Nat.zero_max]
        · simp [hp]
      · have hstep : exitCodeStep 0 (.childExit c) = c := by
          simp [exitCodeStep, hpos]
        rw [hstep, foldl_exitCodeStep_pos rest c hpos]
        have h1 : hasPosChild (RunErr.childExit c :: rest) = true := by
          simp [hasPosChild]
          exact Or.inl hpos
        rw [h1, if_pos rfl, maxChildExitCode_cons_child]
    | internal =>
      rw [List.foldl_cons]
      have hstep : exitCodeStep 0 .internal = 1 := by decide
      rw [hstep, foldl_exitCodeStep_pos rest 1 Nat.one_pos]
      have h1 : hasPosChild (RunErr.internal :: rest) = hasPosChild rest := by
        simp [hasPosChild]
      have h2 : hasInternal (RunErr.internal :: rest) = true := by
        simp [hasInternal]
      rw [h1, h2, maxChildExitCode_cons_internal]
      by_cases hp : hasPosChild rest = true
      · have hm := maxChildExitCode_pos rest hp
        simp [hp, Nat.max_eq_right hm]
      · have hm := maxChildExitCode_zero rest (by simpa using hp)
        simp [hp, hm]

theorem overallExitCode_eq (errs : List RunErr) :
    overallExitCode errs = executeTasksExitCode errs := by
  unfold overallExitCode executeTasks
  by_cases h : executeTasksExitCode errs = 0
  · simp [h, runCommandExit]
  · simp [h, runCommandExit]

/-- A positive child exit code was collected exactly when some task child
exited non-zero. -/
theorem hasPosChild_iff (errs : List RunErr) :
    hasPosChild errs = true ↔ ∃ c, 0 < c ∧ RunErr.childExit c ∈ errs := by
  unfold hasPosChild
  rw [List.any_eq_true]
  constructor
  · rintro ⟨e, he, hf⟩
    cases e with
    | childExit c => exact ⟨c, by simpa using hf, he⟩
    | internal => simp at hf
  · rintro ⟨c, hc, hm⟩
    exact ⟨.childExit c, hm, by simpa using hc⟩

/-- An internal error was collected exactly when the error list holds one. -/
theorem hasInternal_iff (errs : List RunErr) :
    hasInternal errs = true ↔ RunErr.internal ∈ errs := by
  unfold hasInternal
  rw [List.any_eq_true]
  constructor
  · rintro ⟨e, he, hf⟩
    cases e with
    | childExit c => simp at hf
    | internal => exact he
  · intro hm
    exact ⟨.internal, hm, rfl⟩

/-- Claim C6: the overall process exit code of a run is 0 when no errors
were collected, the maximum child exit code across all failed tasks when
some child exited non-zero, and 1 when no child exited non-zero but an
internal (non-child-exit) error occurred. -/
theorem overall_exit_code (errs : List RunErr) :
    (errs = [] → overallExitCode errs = 0) ∧
    (hasPosChild errs = true → overallExitCode errs = maxChildExitCode errs) ∧
    (hasPosChild errs = false → hasInternal errs = true → overallExitCode errs = 1) := by
  refine ⟨?_, ?_, ?_⟩
  · intro h
    subst h
    rfl
  · intro h
    rw [overallExitCode_eq, executeTasksExitCode_eq, if_pos h]
  · intro h1 h2
    rw [overallExitCode_eq, executeTasksExitCode_eq]
    rw [if_neg (by simp [h1]), if_pos h2]

/-- Witness for C6: a run collecting one internal error and two failed
children with codes 2 and 5 exits with code 5, the maximum child code. -/
theorem overall_exit_code_witness :
    hasPosChild c6Errs = true ∧
    overallExitCode c6Errs = maxChildExitCode c6Errs ∧
    overallExitCode c6Errs = 5 :=
  ⟨by decide, (overall_exit_code c6Errs).2.1 (by decide), by decide⟩

theorem asyncDrain_drains (innerPut : CacheRequest → Option String) :
    ∀ (n : Nat) (st : AsyncState), st.queue.length ≤ n →
      asyncDrain innerPut n st =
        { queue := [], innerPuts := st.innerPuts ++ st.queue, closed := st.closed } := by
  intro n
  induction n with
  | zero =>
    intro st h
    have hq : st.queue = [] := List.eq_nil_of_length_eq_zero (Nat.le_zero.mp h)
    cases st with
    | mk q ip cl =>
      simp only at hq
      subst hq
      simp [asyncDrain]
  | succ n ih =>
    intro st h
    rw [asyncDrain]
    by_cases hq : st.queue.isEmpty
    · rw [if_pos hq]
      have hqq : st.queue = [] := by simpa [List.isEmpty_iff] using hq
      cases st with
      | mk q ip cl =>
        simp only at hqq
        subst hqq
        simp
    · rw [if_neg hq]
      cases hqq : st.queue with
      | nil => simp [hqq] at hq
      | cons r rest =>
        have hstep : asyncWorkerStep innerPut st =
            { queue := rest, innerPuts := st.innerPuts ++ [r], closed := st.closed } := by
          unfold asyncWorkerStep
          rw [hqq]
        rw [hstep, ih _ (by
          have := h
          rw [hqq] at this
          simpa using Nat.le_of_succ_le_succ this)]
        simp

/-- Claim C7: Put appends the request record to the queue and returns nil
without touching the wrapped backend; Shutdown closes the channel and
drains the queue, handing every queued request to the wrapped backend Put
in arrival order; Fetch and Clean delegate synchronously to the wrapped
backend. -/
theorem async_cache_contract {α β : Type} (innerPut : CacheRequest → Option String)
    (innerFetch : List Char → String → α) (innerClean : String → β)
    (st : AsyncState) (root : List Char) (key : String) (duration : Int)
    (files : List (List Char)) (target : String) :
    (asyncPut st root key duration files).1.queue
        = st.queue ++ [{ root := root, key := key, duration := duration, files := files }] ∧
    (asyncPut st root key duration files).1.innerPuts = st.innerPuts ∧
    (asyncPut st root key duration files).2 = none ∧
    (asyncShutdown innerPut st).closed = true ∧
    (asyncShutdown innerPut st).queue = [] ∧
    (asyncShutdown innerPut st).innerPuts = st.innerPuts ++ st.queue ∧
    asyncFetch innerFetch st root key = innerFetch root key ∧
    asyncClean innerClean st target = innerClean target := by
  have hsd : asyncShutdown innerPut st =
      { queue := [], innerPuts := st.innerPuts ++ st.queue, closed := true } := by
    unfold asyncShutdown
    rw [asyncDrain_drains innerPut st.queue.length { st with closed := true } (le_refl _)]
  exact ⟨rfl, rfl, rfl, by rw [hsd], by rw [hsd], by rw [hsd], rfl, rfl⟩

theorem asyncWorkerStep_indep (p q : CacheRequest → Option String) (st : AsyncState) :
    asyncWorkerStep p st = asyncWorkerStep q st := by
  unfold asyncWorkerStep
  cases st.queue <;> rfl

theorem asyncDrain_indep (p q : CacheRequest → Option String) :
    ∀ (n : Nat) (st : AsyncState), asyncDrain p n st = asyncDrain q n st := by
  intro n
  induction n with
  | zero => intro st; rfl
  | succ n ih =>
    intro st
    rw [asyncDrain, asyncDrain]
    by_cases hq : st.queue.isEmpty
    · rw [if_pos hq, if_pos hq]
    · rw [if_neg hq, if_neg hq, asyncWorkerStep_indep p q, ih]

/-- Claim C9: the async Put returns nil for every input, and the error the
wrapped backend Put produces inside the worker loop is discarded: the
worker step, the shutdown drain, and Shutdown give identical states for
any two error behaviors of the wrapped backend, so no inner Put error is
ever reported to a caller of the async cache. -/
theorem async_put_error_discarded (st : AsyncState) (root : List Char) (key : String)
    (duration : Int) (files : List (List Char))
    (p q : CacheRequest → Option String) (n : Nat) :
    (asyncPut st root key duration files).2 = none ∧
    asyncWorkerStep p st = asyncWorkerStep q st ∧
    asyncDrain p n st = asyncDrain q n st ∧
    asyncShutdown p st = asyncShutdown q st := by
  refine ⟨rfl, asyncWorkerStep_indep p q st, asyncDrain_indep p q n st, ?_⟩
  unfold asyncShutdown
  exact asyncDrain_indep p q _ _

/-- Claim C8: a filesystem-cache Fetch whose hash directory is absent is a
clean miss with no error and touches nothing; when the directory exists the
first action is the recursive hard-link-or-copy of the cached folder into
the workspace root, and when that copy and the meta read both succeed the
result is a hit whose duration comes from the `<hash>-meta.json` file. -/
theorem fs_fetch_contract (cacheDirectory root : List Char) (hash : String)
    (env : FsFetchEnv) (meta : CacheMetadata) :
    (env.cachedFolderExists = false →
      fsFetch cacheDirectory root hash env =
        ({ hit := false, files := none, duration := 0, err := none }, [])) ∧
    (env.cachedFolderExists = true →
      (fsFetch cacheDirectory root hash env).2.head? =
        some (.recursiveCopyOrLink (apJoin cacheDirectory [hash.toList]) root)) ∧
    (env.cachedFolderExists = true → env.copyError = none → env.metaRead = some meta →
      fsFetch cacheDirectory root hash env =
        ({ hit := true, files := none, duration := meta.duration, err := none },
         [.recursiveCopyOrLink (apJoin cacheDirectory [hash.toList]) root,
          .readMeta (apJoin cacheDirectory [(hash ++ "-meta.json").toList])])) := by
  refine ⟨?_, ?_, ?_⟩
  · intro h
    simp [fsFetch, h]
  · intro h
    unfold fsFetch
    simp only [h, Bool.not_true, Bool.false_eq_true, if_false]
    cases henv : env.copyError with
    | some e => simp
    | none =>
      cases hm : env.metaRead with
      | none => simp
      | some m => simp
  · intro h1 h2 h3
    simp [fsFetch, h1, h2, h3]

/-- Witness for C8 at a concrete environment: the hash directory exists,
the copy succeeds, and the meta file carries duration 42. -/
theorem fs_fetch_contract_witness :
    c8Env.cachedFolderExists = true ∧ c8Env.copyError = none ∧
    c8Env.metaRead = some { hash := "h1", duration := 42 } ∧
    fsFetch ['/', 'c'] ['/', 'r'] "h1" c8Env =
      ({ hit := true, files := none, duration := 42, err := none },
       [.recursiveCopyOrLink (apJoin ['/', 'c'] ["h1".toList]) ['/', 'r'],
        .readMeta (apJoin ['/', 'c'] [("h1" ++ "-meta.json").toList])]) :=
  ⟨rfl, rfl, rfl,
    (fs_fetch_contract ['/', 'c'] ['/', 'r'] "h1" c8Env { hash := "h1", duration := 42 }).2.2
      rfl rfl rfl⟩

end Turbo
